import Mathlib

/-!
Verification development for the grudge symbolic compiler and scheduler
(`grudge/symbolic/compiler.py`).

The development shallowly embeds:
* the instruction model (`Instruction` and its variants, identified by an
  `iid` field modelling Python object identity, since `__eq__`/`__hash__`
  are identity-based);
* the dynamic scheduler (`Code.get_next_step`, `Code.execute_dynamic`),
  the static-schedule replay (`Code.execute`) and the retry budget
  (`Code.__init__`: `static_schedule_attempts = 5`);
* the fresh-name generator (`OperatorCompiler.get_var_name`);
* the zero-assignment filtering at the head of
  `OperatorCompiler.aggregate_assignments`;
* the flux-batching loop of `OperatorCompiler.__call__` and
  `make_flux_batch_assign`;
* the recursive expression walk of `OperatorCompiler` (`map_*` methods)
  over a first-order expression language.

External collaborators (pytools, pymbolic mappers, type inference, the
numeric evaluator) are modelled by explicit data or function parameters,
following the documented contracts the source relies on.  Machine futures
are modelled as records carrying a readiness flag and the assignments they
deliver on completion.
-/

/-! ### Instruction model (`Instruction` and subclasses, lines 37-323) -/

/-- The closed set of instruction variants of the source. -/
inductive IKind where
  | assign
  | vectorExprAssign
  | fluxBatch
  | diffBatch
  | quadDiffBatch
  | fluxExchange
deriving DecidableEq, Repr

/-- A scheduling unit as seen by `Code`: produced names, dependency names
(`get_dependencies`), a priority, and an `iid` modelling Python object
identity (`Instruction.__hash__`/`__eq__` are identity based). -/
structure RInsn where
  iid : Nat
  kind : IKind
  names : List String
  deps : List String
  priority : Int
deriving DecidableEq, Repr

/-- `Assign(names=[name], exprs=[expr], priority=priority, ...)`: the
priority is supplied by the caller (default 0 at all call sites). -/
def mkAssignInsn (iid : Nat) (names deps : List String) (priority : Int) : RInsn :=
  ⟨iid, .assign, names, deps, priority⟩

/-- `FluxBatchAssign`: no priority argument, so the `Instruction` class
default 0 applies. -/
def mkFluxBatchInsn (iid : Nat) (names deps : List String) : RInsn :=
  ⟨iid, .fluxBatch, names, deps, 0⟩

/-- `DiffBatchAssign`: class default priority 0. -/
def mkDiffBatchInsn (iid : Nat) (names deps : List String) : RInsn :=
  ⟨iid, .diffBatch, names, deps, 0⟩

/-- `QuadratureDiffBatchAssign`: class default priority 0. -/
def mkQuadDiffBatchInsn (iid : Nat) (names deps : List String) : RInsn :=
  ⟨iid, .quadDiffBatch, names, deps, 0⟩

/-- `FluxExchangeBatchAssign`: the class carries `priority = 1`
(line 256). -/
def mkFluxExchangeInsn (iid : Nat) (names deps : List String) : RInsn :=
  ⟨iid, .fluxExchange, names, deps, 1⟩

/-- `VectorExprAssign`, an `Assign` subclass: priority supplied by
`finalize_multi_assign`. -/
def mkVectorExprAssignInsn (iid : Nat) (names deps : List String) (priority : Int) : RInsn :=
  ⟨iid, .vectorExprAssign, names, deps, priority⟩

/-! ### `pytools.argmax2`

`Code.get_next_step` selects via `argmax2` from the external pytools
library: scan the `(argument, value)` pairs keeping the first pair whose
value is strictly greater than the running maximum. -/

/-- Scanning step of `argmax2`: update only on a strictly larger value. -/
def argmax2Go (best : RInsn × Int) : List (RInsn × Int) → RInsn × Int
  | [] => best
  | p :: rest => if best.2 < p.2 then argmax2Go p rest else argmax2Go best rest

/-- `pytools.argmax2` over `(instruction, priority)` pairs; `none` models
the `ValueError` on an empty iterable (unreached: the source raises
`NoInstructionAvailable` first). -/
def argmax2 : List (RInsn × Int) → Option (RInsn × Int)
  | [] => none
  | p :: rest => some (argmax2Go p rest)

/-! ### `Code.get_next_step` (lines 415-454) -/

/-- The `available_insns` comprehension (lines 418-422): not-yet-done
instructions all of whose dependency names are available, paired with
their priority, in instruction-list order. -/
def availableInsns (insns : List RInsn) (ns : List String) (done : List Nat) :
    List (RInsn × Int) :=
  (insns.filter (fun insn =>
      decide (insn.iid ∉ done) && insn.deps.all (fun d => decide (d ∈ ns)))).map
    (fun insn => (insn, insn.priority))

/-- Dependency names of all not-yet-done instructions (the flattened set,
lines 428-431). -/
def neededDeps (insns : List RInsn) (done : List Nat) : List String :=
  (insns.filter (fun insn => decide (insn.iid ∉ done))).flatMap (fun insn => insn.deps)

/-- `Code.get_next_step`: pick an available instruction by `argmax2` over
priorities, and compute the discardable variables: available names needed
by no incomplete instruction and not referenced by the result expression
(`remove_result_variable`, lines 433-452).  `none` models the
`NoInstructionAvailable` exception.  The source memoizes this method on
the `frozenset`s of available names and done instructions; the embedding
is a pure function of those arguments. -/
def getNextStep (insns : List RInsn) (ns : List String) (done : List Nat)
    (resultVars : List String) : Option (RInsn × List String) :=
  match argmax2 (availableInsns insns ns done) with
  | none => none
  | some (insn, _) =>
      let discardable := ns.filter (fun v =>
        decide (v ∉ neededDeps insns done) && decide (v ∉ resultVars))
      some (insn, discardable)

/-! ### Futures and the evaluator contract -/

/-- A future: a readiness flag (`is_ready`) and the assignments delivered
by its completion call.  Completion returns `(assignments, new_futures)`;
futures delivering further futures are not needed by the scenarios here,
so completion delivers no new futures. -/
structure Fut where
  ready : Bool
  output : List (String × Int)
deriving DecidableEq, Repr

/-- The external evaluator (exec mapper): for an instruction, the
execution hook returns `(assignments, new_futures)`. -/
structure Evaluator where
  run : RInsn → List (String × Int) × List Fut

/-- A schedule entry stores either an instruction or the synthetic
`EvaluateFuture` marker with the recorded future id. -/
inductive StepK where
  | insn (i : RInsn)
  | evalFuture (fid : Nat)
deriving DecidableEq, Repr

/-- One entry of `Code.last_schedule`:
`(discardable_vars, instruction, len(new_futures))`. -/
abbrev SchedEntry := List String × StepK × Nat

/-! ### Execution context helpers -/

/-- `del context[name] for name in ks`. -/
def eraseKeys (ctx : List (String × Int)) (ks : List String) : List (String × Int) :=
  ctx.filter (fun p => decide (p.1 ∉ ks))

/-- `context[target] = value` (mapping update; key membership is what the
scheduler observes). -/
def setKey (ctx : List (String × Int)) (k : String) (v : Int) : List (String × Int) :=
  (ctx.filter (fun p => p.1 ≠ k)) ++ [(k, v)]

/-- Write a list of `(target, value)` assignments into the context. -/
def writeAll (ctx : List (String × Int)) : List (String × Int) → List (String × Int)
  | [] => ctx
  | (k, v) :: rest => writeAll (setKey ctx k v) rest

/-- The names currently bound in the context (`context.keys()`). -/
def ctxNames (ctx : List (String × Int)) : List String := ctx.map (·.1)

/-- Context lookup. -/
def lookupCtx (ctx : List (String × Int)) (k : String) : Option Int :=
  (ctx.find? (fun p => p.1 == k)).map (·.2)

/-! ### `Code` and the dynamic scheduler (`execute_dynamic`, lines 456-541) -/

/-- A `Code` (Program): instruction list and the variables referenced by
the result expression (the result is a variable or an object array of
variables; `with_object_array_or_scalar` evaluates each). -/
structure RCode where
  instructions : List RInsn
  resultVars : List String
deriving DecidableEq, Repr

/-- Errors raised by execution (`RuntimeError`s in the source, plus fuel
exhaustion of the embedding's loop counter). -/
inductive ExecErr where
  | outOfFuel
  | unreachable (missing : List RInsn)
  | missingFuture
  | futureCountMismatch
deriving DecidableEq, Repr

/-- Mutable state of one `execute_dynamic` invocation. -/
structure DynState where
  ctx : List (String × Int)
  nextFutureId : Nat
  futures : List (Nat × Fut)
  done : List Nat
  schedule : List SchedEntry
  forceFuture : Bool
deriving DecidableEq, Repr

/-- The future scan at the top of the `while True` loop (lines 476-490):
pop the first outstanding future that is ready (or the first one at all
when `force_future` is set). -/
def findReadyFuture (force : Bool) :
    List (Nat × Fut) → Option ((Nat × Fut) × List (Nat × Fut))
  | [] => none
  | f :: rest =>
      if force || f.2.ready then some (f, rest)
      else match findReadyFuture force rest with
        | none => none
        | some (g, rest') => some (g, f :: rest')

/-- Attach fresh ids `start, start+1, ...` to newly produced futures
(lines 525-527). -/
def assignIds (start : Nat) : List Fut → List (Nat × Fut)
  | [] => []
  | f :: rest => (start, f) :: assignIds (start + 1) rest

/-- Common tail of a loop step (lines 514-527): write the assignments,
append the new futures with fresh ids, and log the schedule entry. -/
def finishStep (s : DynState) (dvars : List String) (step : StepK)
    (assignments : List (String × Int)) (newFuts : List Fut) : DynState :=
  { s with
    ctx := writeAll s.ctx assignments
    futures := s.futures ++ assignIds s.nextFutureId newFuts
    schedule := s.schedule ++ [(dvars, step, newFuts.length)]
    nextFutureId := s.nextFutureId + newFuts.length }

/-- The `while True` loop of `execute_dynamic`, with a fuel counter for
the embedding (the source loop terminates by the done/futures measure).
On normal exit it performs the unreachable-instruction check
(lines 529-535), reporting the set of instructions that never completed. -/
def dynLoop (code : RCode) (ev : Evaluator) : Nat → DynState → Except ExecErr DynState
  | 0, _ => .error .outOfFuel
  | fuel + 1, s =>
      match findReadyFuture s.forceFuture s.futures with
      | some ((fid, fut), rest) =>
          -- a future completed: synthetic EvaluateFuture step
          let s₁ := { s with futures := rest, forceFuture := false }
          dynLoop code ev fuel (finishStep s₁ [] (.evalFuture fid) fut.output [])
      | none =>
          match getNextStep code.instructions (ctxNames s.ctx) s.done code.resultVars with
          | none =>
              if s.futures.isEmpty then
                -- loop exit: unreachable-instruction check
                let missing := code.instructions.filter (fun i => decide (i.iid ∉ s.done))
                if missing.isEmpty then .ok s else .error (.unreachable missing)
              else
                -- no insn ready: we need a future to complete to continue
                dynLoop code ev fuel { s with forceFuture := true }
          | some (insn, dvars) =>
              let s₁ := { s with ctx := eraseKeys s.ctx dvars, done := s.done ++ [insn.iid] }
              let (assignments, newFuts) := ev.run insn
              dynLoop code ev fuel (finishStep s₁ dvars (.insn insn) assignments newFuts)

/-- Persistent scheduling state of a `Code` object (`Code.__init__`,
lines 389-394): the cached schedule and the retry budget. -/
structure CodeSt where
  lastSchedule : Option (List SchedEntry)
  attempts : Int
deriving DecidableEq, Repr

/-- A freshly constructed `Code`: no schedule, `static_schedule_attempts = 5`. -/
def freshCodeSt : CodeSt := ⟨none, 5⟩

/-! ### Static schedule replay (`Code.execute`, lines 551-598) -/

/-- Mutable state of one replay. -/
structure ReplaySt where
  ctx : List (String × Int)
  idToFuture : List (Nat × Fut)
  nextFutureId : Nat
  delayFree : Bool
deriving DecidableEq, Repr

/-- `id_to_future.pop(fid)`: remove and return the matching future. -/
def popFuture (fid : Nat) :
    List (Nat × Fut) → Option (Fut × List (Nat × Fut))
  | [] => none
  | f :: rest =>
      if f.1 = fid then some (f.2, rest)
      else match popFuture fid rest with
        | none => none
        | some (g, rest') => some (g, f :: rest')

/-- Replay loop body over the cached schedule entries (lines 565-591):
discard the recorded names, run the instruction (or complete the recorded
future, noting a delay if it was not ready), write the assignments, check
the future count against the recorded count (`RuntimeError` on mismatch),
and register the new futures with fresh ids. -/
def replayLoop (ev : Evaluator) : List SchedEntry → ReplaySt → Except ExecErr ReplaySt
  | [], r => .ok r
  | (dvars, step, cnt) :: rest, r =>
      let r₀ := { r with ctx := eraseKeys r.ctx dvars }
      match step with
      | .evalFuture fid =>
          match popFuture fid r₀.idToFuture with
          | none => .error .missingFuture
          | some (fut, remaining) =>
              let r₁ := { r₀ with
                idToFuture := remaining
                delayFree := r₀.delayFree && fut.ready }
              let assignments := fut.output
              let newFuts : List Fut := []
              let r₂ := { r₁ with ctx := writeAll r₁.ctx assignments }
              if newFuts.length ≠ cnt then .error .futureCountMismatch
              else
                replayLoop ev rest { r₂ with
                  idToFuture := r₂.idToFuture ++ assignIds r₂.nextFutureId newFuts
                  nextFutureId := r₂.nextFutureId + newFuts.length }
      | .insn insn =>
          let (assignments, newFuts) := ev.run insn
          let r₂ := { r₀ with ctx := writeAll r₀.ctx assignments }
          if newFuts.length ≠ cnt then .error .futureCountMismatch
          else
            replayLoop ev rest { r₂ with
              idToFuture := r₂.idToFuture ++ assignIds r₂.nextFutureId newFuts
              nextFutureId := r₂.nextFutureId + newFuts.length }

/-- Evaluate the result expression(s) in a context. -/
def evalResult (code : RCode) (ctx : List (String × Int)) : List (Option Int) :=
  code.resultVars.map (lookupCtx ctx)

/-- `Code.execute`: replay the cached schedule when one exists, else run
the dynamic scheduler.  After a successful dynamic run the schedule is
cached when `static_schedule_attempts` is nonzero (line 537); after a
replay that was not delay-free the cached schedule is dropped and the
budget decremented (lines 593-595).  A raised `RuntimeError` propagates
and leaves the `Code` fields untouched. -/
def execute (code : RCode) (ev : Evaluator) (initCtx : List (String × Int))
    (fuel : Nat) (cs : CodeSt) : Except ExecErr (List (Option Int)) × CodeSt :=
  match cs.lastSchedule with
  | none =>
      match dynLoop code ev fuel
          { ctx := initCtx, nextFutureId := 0, futures := [], done := [],
            schedule := [], forceFuture := false } with
      | .error e => (.error e, cs)
      | .ok s =>
          let cs' := if cs.attempts ≠ 0 then { cs with lastSchedule := some s.schedule } else cs
          (.ok (evalResult code s.ctx), cs')
  | some sched =>
      match replayLoop ev sched
          { ctx := initCtx, idToFuture := [], nextFutureId := 0, delayFree := true } with
      | .error e => (.error e, cs)
      | .ok r =>
          let cs' := if r.delayFree then cs
            else { lastSchedule := none, attempts := cs.attempts - 1 }
          (.ok (evalResult code r.ctx), cs')

/-! ### Name generation (`OperatorCompiler.get_var_name`, lines 723-748) -/

/-- State of the name generator: the compiler's default plain-name stem
(`self.prefix`, default `"_expr"`) and `self.assigned_names`. -/
structure NameGen where
  pfx : String
  assigned : List String
deriving DecidableEq, Repr

/-- `generate_suffixes` (lines 724-729): candidate `k = 0` is the bare
name, candidate `k ≥ 1` appends `"_%d" % (k + 1)` — numbering starts
at 2. -/
def suffixCandidate (p : String) : Nat → String
  | 0 => p
  | Nat.succ k => p ++ "_" ++ Nat.repr (k + 2)

/-- `generate_plain_names` (lines 731-735): `self.prefix + str(i)` for
`i = 0, 1, ...`. -/
def plainCandidate (stem : String) (i : Nat) : String := stem ++ Nat.repr i

/-- Scan candidates `k, k+1, ...` for the first one not yet assigned
(the source's `for`-loop over an infinite generator; the embedding bounds
the scan by a fuel counter). -/
def findFirstFree (cand : Nat → String) (assigned : List String) :
    Nat → Nat → Option String
  | 0, _ => none
  | fuel + 1, k =>
      if cand k ∈ assigned then findFirstFree cand assigned fuel (k + 1)
      else some (cand k)

/-- The candidate stream picked at the top of `get_var_name`: suffixed
candidates of the given stem, or plain generated names when no stem is
given. -/
def nameCandidates (g : NameGen) : Option String → Nat → String
  | none => plainCandidate g.pfx
  | some stem => suffixCandidate stem

/-- `OperatorCompiler.get_var_name`: pick the first free candidate name
and add it to `assigned_names`. -/
def getVarName (g : NameGen) (p : Option String) (fuel : Nat) :
    Option (String × NameGen) :=
  match findFirstFree (nameCandidates g p) g.assigned fuel 0 with
  | none => none
  | some n => some (n, { g with assigned := n :: g.assigned })

/-! ### Zero-assignment filtering in `aggregate_assignments`
(lines 1019-1040)

Assignment instructions are abstracted to the attributes the filtering
reads: scalar-valuedness, the `flop_count()` of the expressions (the
external `FlopCounter` summed over `exprs`), and whether
`any(is_zero(expr) for expr in exprs)` holds. -/

/-- An `Assign` as seen by the aggregation pass. -/
structure AAssign where
  iid : Nat
  isScalarValued : Bool
  flops : Nat
  hasZeroExpr : Bool
deriving DecidableEq, Repr

/-- An instruction of the input list: an `Assign` or any other variant. -/
inductive AInsn where
  | assign (a : AAssign)
  | other (iid : Nat)
deriving DecidableEq, Repr

/-- `pytools.partition(criterion, list) = (matching, non-matching)`. -/
def partitionBy (p : α → Bool) (l : List α) : List α × List α :=
  (l.filter p, l.filter (fun x => !(p x)))

/-- The `while i < len(unprocessed_assigns)` loop (lines 1033-1040):
when the assignment at index `i` has a provably-zero expression the
source executes `processed_assigns.append(unprocessed_assigns.pop())`,
popping the LAST list element (not index `i`), and leaves `i` unchanged;
otherwise `i` is incremented.  The fuel counter bounds the embedding's
loop (`length + 1` iterations always suffice). -/
def zeroFilterLoop : Nat → List AAssign → List AAssign → Nat →
    List AAssign × List AAssign
  | 0, processed, unprocessed, _ => (processed, unprocessed)
  | fuel + 1, processed, unprocessed, i =>
      if h : i < unprocessed.length then
        if (unprocessed.get ⟨i, h⟩).hasZeroExpr then
          match unprocessed.getLast? with
          | some lastA =>
              zeroFilterLoop fuel (processed ++ [lastA]) unprocessed.dropLast i
          | none => (processed, unprocessed)
        else
          zeroFilterLoop fuel processed unprocessed (i + 1)
      else (processed, unprocessed)

/-- The filtering prelude of `aggregate_assignments` (lines 1019-1040):
split off non-scalar `Assign`s, move zero-flop-count ones to the
processed side, then run the zero-expression loop.  Returns
`(processed_assigns, unprocessed_assigns, other_insns)`; only
`unprocessed_assigns` enter the greedy aggregation. -/
def aggregateFilter (instructions : List AInsn) :
    List AAssign × List AAssign × List AInsn :=
  let (unproc0, others) := partitionBy
    (fun i => match i with
      | .assign a => !a.isScalarValued
      | .other _ => false) instructions
  let unproc0a := unproc0.filterMap (fun i => match i with
      | .assign a => some a
      | .other _ => none)
  let (proc0, unproc1) := partitionBy (fun a => a.flops == 0) unproc0a
  let (proc, unproc) := zeroFilterLoop (unproc1.length + 1) proc0 unproc1 0
  (proc, unproc, others)

/-! ### Flux batching (`OperatorCompiler.__call__`, lines 661-704) -/

/-- `OperatorCompiler.FluxRecord`: a flux expression (identified by a
token modelling pymbolic structural identity), the identities of the
other fluxes nested inside it, and its representative operator
(`repr_op()`). -/
structure FluxRec where
  fluxExpr : Nat
  deps : List Nat
  reprOp : Nat
deriving DecidableEq, Repr

/-- `OperatorCompiler.FluxBatch`: member flux records and the shared
representative operator (the source stores the member flux expressions;
records are kept so that each member carries its `repr_op`). -/
structure FluxBatch where
  reprOp : Nat
  fluxExprs : List FluxRec
deriving DecidableEq, Repr

/-- The inner scan of one batching round (lines 677-684): extract, in
queue order, the records whose flux dependencies are all admissible
(first component), keeping the others queued (second component). -/
def extractAdmissible (adm : List Nat) : List FluxRec → List FluxRec × List FluxRec
  | [] => ([], [])
  | fr :: rest =>
      let pr := extractAdmissible adm rest
      if fr.deps.all (fun d => decide (d ∈ adm)) then (fr :: pr.1, pr.2)
      else (pr.1, fr :: pr.2)

/-- Bin one round's records by representative operator (lines 687-698),
one batch per distinct `repr_op`; the fuel counter bounds the embedding's
recursion (the list length always suffices). -/
def groupByReprOpAux : Nat → List FluxRec → List FluxBatch
  | _, [] => []
  | 0, _ => []
  | fuel + 1, fr :: rest =>
      ⟨fr.reprOp, fr :: rest.filter (fun g => g.reprOp == fr.reprOp)⟩ ::
        groupByReprOpAux fuel (rest.filter (fun g => g.reprOp != fr.reprOp))

/-- `batches_by_repr_op` binning of one round. -/
def groupByReprOp (l : List FluxRec) : List FluxBatch :=
  groupByReprOpAux l.length l

/-- The `while flux_queue` loop (lines 675-702): repeatedly extract the
admissible subset, bin it by `repr_op`, and mark the round's fluxes
admissible; `none` models the `RuntimeError` raised when no record can be
extracted while the queue is nonempty (and fuel exhaustion, which cannot
occur from `makeFluxBatches`). -/
def makeFluxBatchesAux : Nat → List Nat → List FluxRec → Option (List FluxBatch)
  | _, _, [] => some []
  | 0, _, _ => none
  | fuel + 1, adm, q0 :: qrest =>
      let pr := extractAdmissible adm (q0 :: qrest)
      if pr.1.isEmpty then none
      else
        match makeFluxBatchesAux fuel (adm ++ pr.1.map (·.fluxExpr)) pr.2 with
        | none => none
        | some bs => some (groupByReprOp pr.1 ++ bs)

/-- `self.flux_batches` as computed by `OperatorCompiler.__call__`:
batching starts with no admissible dependencies. -/
def makeFluxBatches (queue : List FluxRec) : Option (List FluxBatch) :=
  makeFluxBatchesAux queue.length [] queue

/-- The `FluxBatchAssign` instruction as built by
`make_flux_batch_assign` (lines 948-949): names, member flux
expressions, and the shared `repr_op`. -/
structure FluxBatchAssignM where
  names : List String
  expressions : List FluxRec
  reprOp : Nat
deriving DecidableEq, Repr

/-- `OperatorCompiler.make_flux_batch_assign`. -/
def makeFluxBatchAssign (names : List String) (expressions : List FluxRec)
    (reprOp : Nat) : FluxBatchAssignM :=
  ⟨names, expressions, reprOp⟩

/-! ### Operator compiler walk (`OperatorCompiler`, lines 607-949)

The expression tree is a first-order language covering the node species
the compiler's `map_*` methods dispatch on; `binOp` stands for the
composite nodes (sums, products, ...) handled by the generic
`IdentityMapper` recursion into children.  pymbolic expressions compare
structurally, so memo tables are keyed by the node payloads. -/

/-- Operator classes dispatched by `map_operator_binding`:
reference differentiation operators (quadrature or not, with a family
token for `equal_except_for_axis` and an axis), flux operators, and all
remaining operators. -/
inductive OpK where
  | refDiff (family axis : Nat)
  | refQuadDiff (family axis : Nat)
  | fluxOp (oid : Nat)
  | otherOp (oid : Nat)
deriving DecidableEq, Repr

/-- `d.op.equal_except_for_axis(expr.op)` together with the
`single_valued(type(d.op))` class agreement: same operator class, same
family, any axis. -/
def opSameClassFamily : OpK → OpK → Bool
  | .refDiff f _, .refDiff f' _ => f == f'
  | .refQuadDiff f _, .refQuadDiff f' _ => f == f'
  | _, _ => false

/-- `isinstance(expr.op, ReferenceDiffOperatorBase)` (line 802). -/
def OpK.isDiffB : OpK → Bool
  | .refDiff _ _ => true
  | .refQuadDiff _ _ => true
  | _ => false

/-- `isinstance(expr.op, FluxOperatorBase)` (line 804). -/
def OpK.isFluxOpB : OpK → Bool
  | .fluxOp _ => true
  | _ => false

/-- The expression language of the embedding. -/
inductive SExpr where
  | var (name : String)
  | subscript (base : SExpr) (index : Nat)
  | cse (pfx : Option String) (priority : Int) (child : SExpr)
  | opBind (op : OpK) (field : SExpr)
  | callF (cfunc : Bool) (fn : String) (arg : SExpr)
  | ones
  | nodeCoord (axis : Nat)
  | normalComp (axis : Nat)
  | wdFlux (fluxId reprOp : Nat) (child : SExpr)
  | fluxXchg (index rank : Nat) (argField : SExpr)
  | binOp (a b : SExpr)
deriving DecidableEq, Repr

/-- Instructions emitted by the compiler walk, mirroring the constructor
calls in the source (`make_assign`, `make_flux_batch_assign`, the
`DiffBatchAssign`/`QuadratureDiffBatchAssign` append, the
`FluxExchangeBatchAssign` append, and `finalize_multi_assign`). -/
inductive CInsn where
  | assign (name : String) (rhs : SExpr) (priority : Int) (isScalarValued : Bool)
  | fluxBatchAssign (names : List String) (expressions : List FluxRec) (reprOp : Nat)
  | diffBatchAssign (names : List String) (field : SExpr)
  | quadDiffBatchAssign (names : List String) (field : SExpr)
  | fluxExchangeBatchAssign (names : List String)
      (indicesAndRanks : List (Nat × Nat)) (argField : SExpr)
  | vectorExprAssign (names : List String) (exprs : List SExpr)
      (doNotReturn : List Bool) (priority : Int)
deriving DecidableEq, Repr

/-- Discriminator for the `VectorExprAssign` variant. -/
def CInsn.isVectorExprAssignB : CInsn → Bool
  | .vectorExprAssign _ _ _ _ => true
  | _ => false

/-- `OperatorCompiler.finalize_multi_assign` (lines 1183-1186): the only
producer of `VectorExprAssign`, called only from the (disabled)
aggregation pass. -/
def finalizeMultiAssign (names : List String) (exprs : List SExpr)
    (doNotReturn : List Bool) (priority : Int) : CInsn :=
  .vectorExprAssign names exprs doNotReturn priority

/-- Generic set-like deduplication (the source's collectors return
pymbolic node sets); the fuel counter bounds the embedding's recursion
(the list length always suffices). -/
def dedupListAux [BEq α] : Nat → List α → List α
  | _, [] => []
  | 0, l => l
  | fuel + 1, t :: rest => t :: dedupListAux fuel (rest.filter (fun u => u != t))

/-- Deduplicate a collector's result. -/
def dedupList [BEq α] (l : List α) : List α := dedupListAux l.length l

/-- `mappers.FluxCollector`: every `WholeDomainFluxOperator` node in the
tree, as `(flux identity, repr_op, nested expression)`. -/
def collectFluxes : SExpr → List (Nat × Nat × SExpr)
  | .var _ => []
  | .subscript b _ => collectFluxes b
  | .cse _ _ c => collectFluxes c
  | .opBind _ f => collectFluxes f
  | .callF _ _ a => collectFluxes a
  | .ones => []
  | .nodeCoord _ => []
  | .normalComp _ => []
  | .wdFlux fid rop c => (fid, rop, c) :: collectFluxes c
  | .fluxXchg _ _ a => collectFluxes a
  | .binOp a b => collectFluxes a ++ collectFluxes b

/-- `mappers.BoundOperatorCollector(sym.ReferenceDiffOperatorBase)`:
every differentiation operator binding in the tree. -/
def collectDiffOps : SExpr → List (OpK × SExpr)
  | .var _ => []
  | .subscript b _ => collectDiffOps b
  | .cse _ _ c => collectDiffOps c
  | .opBind op f =>
      (match op with
        | .refDiff _ _ => [(op, f)]
        | .refQuadDiff _ _ => [(op, f)]
        | _ => []) ++ collectDiffOps f
  | .callF _ _ a => collectDiffOps a
  | .ones => []
  | .nodeCoord _ => []
  | .normalComp _ => []
  | .wdFlux _ _ c => collectDiffOps c
  | .fluxXchg _ _ a => collectDiffOps a
  | .binOp a b => collectDiffOps a ++ collectDiffOps b

/-- `mappers.FluxExchangeCollector`: every flux-exchange node, as
`(index, rank, arg field)`. -/
def collectFluxXchgs : SExpr → List (Nat × Nat × SExpr)
  | .var _ => []
  | .subscript b _ => collectFluxXchgs b
  | .cse _ _ c => collectFluxXchgs c
  | .opBind _ f => collectFluxXchgs f
  | .callF _ _ a => collectFluxXchgs a
  | .ones => []
  | .nodeCoord _ => []
  | .normalComp _ => []
  | .wdFlux _ _ c => collectFluxXchgs c
  | .fluxXchg i r a => (i, r, a) :: collectFluxXchgs a
  | .binOp a b => collectFluxXchgs a ++ collectFluxXchgs b

/-- `get_contained_fluxes` plus the dependency recomputation of
`__call__` (lines 666-670): each flux's dependencies are the fluxes
nested inside it, minus itself. -/
def fluxRecordsOf (e : SExpr) : List FluxRec :=
  (dedupList (collectFluxes e)).map (fun t =>
    ⟨t.1,
      ((dedupList (collectFluxes t.2.2)).map (·.1)).filter (fun d => d != t.1),
      t.2.1⟩)

/-- Association-list lookup (pymbolic dict keyed by structural
equality). -/
def lookupAssoc [BEq α] (l : List (α × β)) (k : α) : Option β :=
  (l.find? (fun p => p.1 == k)).map (·.2)

/-- Compile-time errors (`RuntimeError`s / assertion failures of the
source, plus fuel exhaustion of the embedded name search). -/
inductive CErr where
  | fluxOperatorEncountered
  | fluxOrderUnresolved
  | fluxNotInBatch
  | emptyExchangeMatch
  | lookupFailed
  | nameGenFailed
deriving DecidableEq, Repr

/-- The up-front collections of `__call__` plus the external type
classification (`self.typedict[expr]` being scalar). -/
structure CompEnv where
  fluxBatches : List FluxBatch
  diffOps : List (OpK × SExpr)
  xchgOps : List (Nat × Nat × SExpr)
  scalarHint : SExpr → Bool

/-- Mutable compiler state: the name generator (`self.prefix`,
`self.assigned_names`), the emitted instruction list (`self.code`), and
the `expr_to_var` memo split by node species (each keyed by the node's
identifying payload, standing for pymbolic structural identity). -/
structure CompSt where
  gen : NameGen
  code : List CInsn
  exprToVar : List (SExpr × SExpr)
  fluxVar : List (Nat × SExpr)
  diffVar : List ((OpK × SExpr) × SExpr)
  xchgVar : List ((Nat × Nat × SExpr) × SExpr)

/-- `self.get_var_name(prefix)` inside the walk, with the embedding's
search bound. -/
def csGetVarName (s : CompSt) (p : Option String) : Except CErr (String × CompSt) :=
  match getVarName s.gen p (s.gen.assigned.length + 2) with
  | none => .error .nameGenFailed
  | some (n, g) => .ok (n, { s with gen := g })

/-- `[self.get_var_name() for d in ...]`: one fresh plain name per
member, in order. -/
def freshNames (s : CompSt) : Nat → Except CErr (List String × CompSt)
  | 0 => .ok ([], s)
  | n + 1 =>
      match csGetVarName s none with
      | .error e => .error e
      | .ok (nm, s₁) =>
          match freshNames s₁ n with
          | .error e => .error e
          | .ok (rest, s₂) => .ok (nm :: rest, s₂)

/-- `isinstance(expr, (Variable, Subscript))` (line 757). -/
def SExpr.isVarOrSubscriptB : SExpr → Bool
  | .var _ => true
  | .subscript _ _ => true
  | _ => false

/-- `OperatorCompiler.assign_to_new_var` (lines 750-764): variables and
subscripts are returned untouched; anything else is assigned to a fresh
variable via `make_assign`. -/
def assignToNewVar (s : CompSt) (e : SExpr) (priority : Int) (p : Option String)
    (isScalarValued : Bool) : Except CErr (SExpr × CompSt) :=
  if e.isVarOrSubscriptB then .ok (e, s)
  else
    match csGetVarName s p with
    | .error err => .error err
    | .ok (n, s₁) =>
        .ok (.var n,
          { s₁ with code := s₁.code ++ [.assign n e priority isScalarValued] })

/-- The recursive tree walk (`IdentityMapper` dispatch over the `map_*`
methods).  The `Option String` argument is `map_operator_binding`'s
`name_hint`, supplied only by `map_common_subexpression` for
operator-binding children (line 785) and consumed only by the
operator-binding case; every other recursion site passes `none`.

Modelling notes, marked at the relevant cases:
* `map_ref_diff_op_binding`: `isinstance(op_class, ReferenceQuadratureStiffnessTOperator)`
  tests a class object against a class, which is always false, so the
  source always appends a `DiffBatchAssign` (line 864-867).
* `map_planned_flux`/`internal_map_flux`: the rewrite of the batch
  members' interior/boundary field expressions is modelled as the
  recursion into this flux node's nested expression. -/
def compileRec (env : CompEnv) : SExpr → Option String → CompSt → Except CErr (SExpr × CompSt)
  | .var n, _, s => .ok (.var n, s)
  | .subscript b i, _, s =>
      match compileRec env b none s with
      | .error e => .error e
      | .ok (b', s') => .ok (.subscript b' i, s')
  | .cse p prio child, _, s =>
      -- map_common_subexpression (lines 770-795), memo keyed by expr.child
      match lookupAssoc s.exprToVar child with
      | some v => .ok (v, s)
      | none =>
          match compileRec env child p s with
          | .error e => .error e
          | .ok (rc, s₁) =>
              match assignToNewVar s₁ rc prio p (env.scalarHint (.cse p prio child)) with
              | .error e => .error e
              | .ok (cseVar, s₂) =>
                  .ok (cseVar, { s₂ with exprToVar := (child, cseVar) :: s₂.exprToVar })
  | .opBind op field, hint, s =>
      if op.isDiffB then
        -- map_ref_diff_op_binding (lines 848-881), memo keyed by the binding
        match lookupAssoc s.diffVar (op, field) with
        | some v => .ok (v, s)
        | none =>
            let allDiffs := env.diffOps.filter (fun d =>
              opSameClassFamily d.1 op && d.2 == field)
            -- single_valued over an empty collection raises
            if allDiffs.isEmpty then .error .lookupFailed
            else
              match freshNames s allDiffs.length with
              | .error e => .error e
              | .ok (names, s₁) =>
                  match compileRec env field none s₁ with
                  | .error e => .error e
                  | .ok (field', s₂) =>
                      let s₃ := { s₂ with
                        code := s₂.code ++ [.diffBatchAssign names field'],
                        diffVar := ((allDiffs.zip names).map
                          (fun q => (q.1, SExpr.var q.2))) ++ s₂.diffVar }
                      match lookupAssoc s₃.diffVar (op, field) with
                      | some v => .ok (v, s₃)
                      | none => .error .lookupFailed
      else if op.isFluxOpB then
        -- line 805: flux operators must have been turned into planned fluxes
        .error .fluxOperatorEncountered
      else
        -- lines 810-817: keep operator assignments standing alone
        match compileRec env field none s with
        | .error e => .error e
        | .ok (f', s₁) =>
            match assignToNewVar s₁ f' 0 none false with
            | .error e => .error e
            | .ok (fieldVar, s₂) =>
                assignToNewVar s₂ (.opBind op fieldVar) 0 hint false
  | .callF cfunc fn arg, _, s =>
      if cfunc then
        -- CFunction calls go through the base IdentityMapper (line 836-837)
        match compileRec env arg none s with
        | .error e => .error e
        | .ok (a', s') => .ok (.callF cfunc fn a', s')
      else
        -- lines 842-846: non-C functions and their arguments get their own variables
        match compileRec env arg none s with
        | .error e => .error e
        | .ok (a', s₁) =>
            match assignToNewVar s₁ a' 0 none false with
            | .error e => .error e
            | .ok (pv, s₂) => assignToNewVar s₂ (.callF cfunc fn pv) 0 none false
  | .ones, _, s => assignToNewVar s .ones 0 (some "ones") false
  | .nodeCoord ax, _, s =>
      assignToNewVar s (.nodeCoord ax) 0 (some ("nodes" ++ Nat.repr ax)) false
  | .normalComp ax, _, s =>
      assignToNewVar s (.normalComp ax) 0 (some ("normal" ++ Nat.repr ax)) false
  | .wdFlux fid _rop child, _, s =>
      -- map_whole_domain_flux → map_planned_flux (lines 911-937)
      match lookupAssoc s.fluxVar fid with
      | some v => .ok (v, s)
      | none =>
          match env.fluxBatches.find? (fun fb =>
              fb.fluxExprs.any (fun fr => fr.fluxExpr == fid)) with
          | none => .error .fluxNotInBatch
          | some fb =>
              match compileRec env child none s with
              | .error e => .error e
              | .ok (_, s₁) =>
                  match freshNames s₁ fb.fluxExprs.length with
                  | .error e => .error e
                  | .ok (names, s₂) =>
                      let s₃ := { s₂ with
                        code := s₂.code ++
                          [.fluxBatchAssign names fb.fluxExprs fb.reprOp],
                        fluxVar := ((fb.fluxExprs.zip names).map
                          (fun q => (q.1.fluxExpr, SExpr.var q.2))) ++ s₂.fluxVar }
                      match lookupAssoc s₃.fluxVar fid with
                      | some v => .ok (v, s₃)
                      | none => .error .lookupFailed
  | .fluxXchg idx rank argField, _, s =>
      -- map_flux_exchange (lines 883-909), members share the argument fields
      match lookupAssoc s.xchgVar (idx, rank, argField) with
      | some v => .ok (v, s)
      | none =>
          let matched := env.xchgOps.filter (fun t => t.2.2 == argField)
          if matched.isEmpty then .error .emptyExchangeMatch
          else
            match freshNames s matched.length with
            | .error e => .error e
            | .ok (names, s₁) =>
                match compileRec env argField none s₁ with
                | .error e => .error e
                | .ok (a', s₂) =>
                    let s₃ := { s₂ with
                      code := s₂.code ++
                        [.fluxExchangeBatchAssign names
                          (matched.map (fun t => (t.1, t.2.1))) a'],
                      xchgVar := ((matched.zip names).map
                        (fun q => (q.1, SExpr.var q.2))) ++ s₂.xchgVar }
                    match lookupAssoc s₃.xchgVar (idx, rank, argField) with
                    | some v => .ok (v, s₃)
                    | none => .error .lookupFailed
  | .binOp a b, _, s =>
      match compileRec env a none s with
      | .error e => .error e
      | .ok (a', s₁) =>
          match compileRec env b none s₁ with
          | .error e => .error e
          | .ok (b', s₂) => .ok (.binOp a' b', s₂)

/-- `OperatorCompiler.__call__` (lines 654-718): wrap the result in a
`_result` CSE, run flux batching, collect diff and exchange operators,
walk the tree, and return `Code(self.code, result)` — the aggregation
call at line 717 is commented out, so the emitted instruction list is
returned unchanged. -/
def compile (e0 : SExpr) (scalarHint : SExpr → Bool) :
    Except CErr (List CInsn × SExpr) :=
  let e := SExpr.cse (some "_result") 0 e0
  match makeFluxBatches (fluxRecordsOf e) with
  | none => .error .fluxOrderUnresolved
  | some fbs =>
      let env : CompEnv :=
        ⟨fbs, dedupList (collectDiffOps e), dedupList (collectFluxXchgs e), scalarHint⟩
      let s0 : CompSt := ⟨⟨"_expr", []⟩, [], [], [], [], []⟩
      match compileRec env e none s0 with
      | .error err => .error err
      | .ok (res, s) => .ok (s.code, res)

/-! ### Concrete scenarios -/

/-- A single dependency-free instruction producing `a` through one
future. -/
def scInsn : RInsn := mkAssignInsn 0 ["a"] [] 0

/-- Program: run `scInsn`, result is `a`. -/
def scCode : RCode := ⟨[scInsn], ["a"]⟩

/-- Evaluator whose futures are never ready at replay time: executing
`scInsn` issues one not-ready future that delivers `a = 1` on
completion. -/
def scEv : Evaluator :=
  ⟨fun insn => if insn.iid = 0 then ([], [⟨false, [("a", 1)]⟩]) else ([], [])⟩

/-- One `Code.execute` call of the scenario (fresh input context each
invocation), keeping only the `Code` scheduling state. -/
def scCall (cs : CodeSt) : CodeSt := (execute scCode scEv [] 50 cs).2

/-- The scheduling state after `n` consecutive `execute` calls on a
fresh Program. -/
def scCallN : Nat → CodeSt
  | 0 => freshCodeSt
  | n + 1 => scCall (scCallN n)

/-- A hand-captured schedule recording five futures for `scInsn`
(the evaluator produces one): replay must hit the future-count check. -/
def cx4Cs : CodeSt := ⟨some [([], .insn scInsn, 5)], 5⟩

/-- An instruction whose dependency `x` is never bound. -/
def c6Insn : RInsn := mkAssignInsn 0 ["y"] ["x"] 0

/-- Program containing only `c6Insn`. -/
def c6Code : RCode := ⟨[c6Insn], ["y"]⟩

/-- Initial dynamic state with an empty context. -/
def c6St : DynState := ⟨[], 0, [], [], [], false⟩

/-- No instruction of the list is a `VectorExprAssign`. -/
def noVectorCode (l : List CInsn) : Prop := ∀ i ∈ l, i.isVectorExprAssignB = false

/-! ## Helper lemmas -/

theorem argmax2Go_mem (l : List (RInsn × Int)) (best : RInsn × Int) :
    argmax2Go best l = best ∨ argmax2Go best l ∈ l := by
  induction l generalizing best with
  | nil => left; rfl
  | cons p rest ih =>
      simp only [argmax2Go]
      split
      · rcases ih p with h | h
        · right; rw [h]; exact List.mem_cons_self p rest
        · right; exact List.mem_cons_of_mem _ h
      · rcases ih best with h | h
        · left; exact h
        · right; exact List.mem_cons_of_mem _ h

theorem argmax2Go_ge_best (l : List (RInsn × Int)) (best : RInsn × Int) :
    best.2 ≤ (argmax2Go best l).2 := by
  induction l generalizing best with
  | nil => exact le_refl _
  | cons p rest ih =>
      simp only [argmax2Go]
      split
      · exact le_trans (le_of_lt (by assumption)) (ih p)
      · exact ih best

theorem argmax2Go_ge (l : List (RInsn × Int)) (best : RInsn × Int) :
    ∀ q ∈ l, q.2 ≤ (argmax2Go best l).2 := by
  induction l generalizing best with
  | nil => intro q hq; cases hq
  | cons p rest ih =>
      intro q hq
      rcases List.mem_cons.mp hq with rfl | hq'
      · simp only [argmax2Go]
        split
        · exact argmax2Go_ge_best rest q
        · exact le_trans (le_of_not_lt (by assumption)) (argmax2Go_ge_best rest best)
      · simp only [argmax2Go]
        split
        · exact ih p q hq'
        · exact ih best q hq'

theorem argmax2_spec {l : List (RInsn × Int)} {m : RInsn × Int}
    (h : argmax2 l = some m) : m ∈ l ∧ ∀ q ∈ l, q.2 ≤ m.2 := by
  cases l with
  | nil => cases h
  | cons p rest =>
      simp only [argmax2, Option.some.injEq] at h
      subst h
      constructor
      · rcases argmax2Go_mem rest p with h | h
        · rw [h]; exact List.mem_cons_self p rest
        · exact List.mem_cons_of_mem _ h
      · intro q hq
        rcases List.mem_cons.mp hq with rfl | hq'
        · exact argmax2Go_ge_best rest q
        · exact argmax2Go_ge rest p q hq'

theorem mem_availableInsns {insns : List RInsn} {ns : List String} {done : List Nat}
    {q : RInsn × Int} (h : q ∈ availableInsns insns ns done) :
    q.1 ∈ insns ∧ q.1.iid ∉ done ∧ (∀ d ∈ q.1.deps, d ∈ ns) ∧ q.2 = q.1.priority := by
  unfold availableInsns at h
  obtain ⟨insn, hmem, hq⟩ := List.mem_map.mp h
  obtain ⟨h1, h2⟩ := List.mem_filter.mp hmem
  simp only [Bool.and_eq_true, decide_eq_true_eq, List.all_eq_true] at h2
  subst hq
  exact ⟨h1, h2.1, fun d hd => by simpa using h2.2 d hd, rfl⟩

theorem availableInsns_mem {insns : List RInsn} {ns : List String} {done : List Nat}
    {insn : RInsn} (h1 : insn ∈ insns) (h2 : insn.iid ∉ done)
    (h3 : ∀ d ∈ insn.deps, d ∈ ns) :
    (insn, insn.priority) ∈ availableInsns insns ns done := by
  unfold availableInsns
  apply List.mem_map.mpr
  refine ⟨insn, List.mem_filter.mpr ⟨h1, ?_⟩, rfl⟩
  simp only [Bool.and_eq_true, decide_eq_true_eq, List.all_eq_true]
  exact ⟨h2, fun d hd => by simpa using h3 d hd⟩

theorem mem_neededDeps {insns : List RInsn} {done : List Nat} {v : String} :
    v ∈ neededDeps insns done ↔ ∃ j ∈ insns, j.iid ∉ done ∧ v ∈ j.deps := by
  unfold neededDeps
  simp only [List.mem_flatMap, List.mem_filter, decide_eq_true_eq]
  constructor
  · rintro ⟨j, ⟨hj, hdone⟩, hv⟩; exact ⟨j, hj, hdone, hv⟩
  · rintro ⟨j, hj, hdone, hv⟩; exact ⟨j, ⟨hj, hdone⟩, hv⟩

theorem getNextStep_selects {insns : List RInsn} {ns : List String} {done : List Nat}
    {rvs : List String} {insn : RInsn} {dv : List String}
    (h : getNextStep insns ns done rvs = some (insn, dv)) :
    (insn ∈ insns ∧ insn.iid ∉ done ∧ ∀ d ∈ insn.deps, d ∈ ns) ∧
    (∀ j ∈ insns, j.iid ∉ done → (∀ d ∈ j.deps, d ∈ ns) → j.priority ≤ insn.priority) := by
  unfold getNextStep at h
  cases ha : argmax2 (availableInsns insns ns done) with
  | none => rw [ha] at h; cases h
  | some m =>
      rw [ha] at h
      obtain ⟨m1, m2⟩ := m
      simp only [Option.some.injEq, Prod.mk.injEq] at h
      obtain ⟨rfl, rfl⟩ := h
      obtain ⟨hmem, hmax⟩ := argmax2_spec ha
      obtain ⟨hins, hdone, hdeps, _⟩ := mem_availableInsns hmem
      refine ⟨⟨hins, hdone, hdeps⟩, ?_⟩
      intro j hj hjdone hjdeps
      have hjav := availableInsns_mem hj hjdone hjdeps
      have hle := hmax _ hjav
      obtain ⟨_, _, _, hpr⟩ := mem_availableInsns hmem
      exact le_trans hle (le_of_eq hpr)

theorem getNextStep_discardable {insns : List RInsn} {ns : List String} {done : List Nat}
    {rvs : List String} {insn : RInsn} {dv : List String}
    (h : getNextStep insns ns done rvs = some (insn, dv)) :
    ∀ v, v ∈ dv ↔ (v ∈ ns ∧ v ∉ neededDeps insns done ∧ v ∉ rvs) := by
  unfold getNextStep at h
  cases ha : argmax2 (availableInsns insns ns done) with
  | none => rw [ha] at h; cases h
  | some m =>
      rw [ha] at h
      obtain ⟨m1, m2⟩ := m
      simp only [Option.some.injEq, Prod.mk.injEq] at h
      obtain ⟨rfl, rfl⟩ := h
      intro v
      simp only [List.mem_filter, Bool.and_eq_true, decide_eq_true_eq]

theorem availableInsns_ext (insns : List RInsn) {ns ns' : List String}
    {done done' : List Nat}
    (hns : ∀ x, x ∈ ns ↔ x ∈ ns') (hdone : ∀ i, i ∈ done ↔ i ∈ done') :
    availableInsns insns ns done = availableInsns insns ns' done' := by
  unfold availableInsns
  congr 1
  apply List.filter_congr
  intro insn _
  rw [Bool.eq_iff_iff]
  simp only [Bool.and_eq_true, decide_eq_true_eq, List.all_eq_true]
  constructor
  · rintro ⟨h1, h2⟩
    exact ⟨fun hm => h1 ((hdone _).mpr hm),
      fun d hd => by
        have := h2 d hd
        simp only [decide_eq_true_eq] at this ⊢
        exact (hns d).mp this⟩
  · rintro ⟨h1, h2⟩
    exact ⟨fun hm => h1 ((hdone _).mp hm),
      fun d hd => by
        have := h2 d hd
        simp only [decide_eq_true_eq] at this ⊢
        exact (hns d).mpr this⟩

theorem neededDeps_ext (insns : List RInsn) {done done' : List Nat}
    (hdone : ∀ i, i ∈ done ↔ i ∈ done') :
    neededDeps insns done = neededDeps insns done' := by
  unfold neededDeps
  congr 1
  apply List.filter_congr
  intro insn _
  rw [Bool.eq_iff_iff]
  simp only [decide_eq_true_eq]
  exact ⟨fun h1 hm => h1 ((hdone _).mpr hm), fun h1 hm => h1 ((hdone _).mp hm)⟩

/-! ## Claim theorems -/

/-- Claim C1: in dynamic scheduling, whenever no future is processed in a
step, the scheduler selects (via `get_next_step`, invoked at line 495 of
`execute_dynamic`) a not-yet-completed instruction whose every dependency
is present in the context, of maximal priority among such candidates; and
the selection, including the tie-break, depends only on the (fixed)
Program, the set of context names and the set of completed instructions,
so for identical state it is the same on every run (the selection is a
pure function; the tie-break is "first maximal-priority candidate in
instruction-list order", from `pytools.argmax2`). -/
theorem c1_dynamic_selection {insns : List RInsn} {ns : List String} {done : List Nat}
    {rvs : List String} {insn : RInsn} {dv : List String}
    (h : getNextStep insns ns done rvs = some (insn, dv)) :
    ((insn ∈ insns ∧ insn.iid ∉ done ∧ ∀ d ∈ insn.deps, d ∈ ns) ∧
      (∀ j ∈ insns, j.iid ∉ done → (∀ d ∈ j.deps, d ∈ ns) →
        j.priority ≤ insn.priority)) ∧
    (∀ ns' done', (∀ x, x ∈ ns ↔ x ∈ ns') → (∀ i, i ∈ done ↔ i ∈ done') →
      ∃ dv', getNextStep insns ns' done' rvs = some (insn, dv') ∧
        ∀ v, v ∈ dv' ↔ v ∈ dv) := by
  refine ⟨getNextStep_selects h, ?_⟩
  intro ns' done' hns hdone
  have hav := availableInsns_ext insns hns hdone
  have hnd := neededDeps_ext insns hdone
  unfold getNextStep at h ⊢
  rw [← hav, ← hnd]
  cases ha : argmax2 (availableInsns insns ns done) with
  | none => rw [ha] at h; cases h
  | some m =>
      rw [ha] at h
      obtain ⟨m1, m2⟩ := m
      simp only [Option.some.injEq, Prod.mk.injEq] at h
      obtain ⟨rfl, rfl⟩ := h
      simp only [ha]
      refine ⟨_, rfl, ?_⟩
      intro v
      simp only [List.mem_filter, Bool.and_eq_true, decide_eq_true_eq]
      constructor
      · rintro ⟨h1, h2⟩; exact ⟨(hns v).mpr h1, h2⟩
      · rintro ⟨h1, h2⟩; exact ⟨(hns v).mp h1, h2⟩

/-- Witness for C1 at a concrete program: two dependency-free
instructions of priorities 0 and 2; the selected one is the second, and it
bounds every ready candidate's priority. -/
theorem c1_dynamic_selection_witness :
    getNextStep [mkAssignInsn 0 ["a"] [] 0, mkAssignInsn 1 ["b"] [] 2] [] [] [] =
      some (mkAssignInsn 1 ["b"] [] 2, []) ∧
    mkAssignInsn 1 ["b"] [] 2 ∈ [mkAssignInsn 0 ["a"] [] 0, mkAssignInsn 1 ["b"] [] 2] ∧
    (∀ j ∈ [mkAssignInsn 0 ["a"] [] 0, mkAssignInsn 1 ["b"] [] 2],
      j.iid ∉ ([] : List Nat) → (∀ d ∈ j.deps, d ∈ ([] : List String)) →
      j.priority ≤ (mkAssignInsn 1 ["b"] [] 2).priority) := by
  have h : getNextStep [mkAssignInsn 0 ["a"] [] 0, mkAssignInsn 1 ["b"] [] 2] [] [] [] =
      some (mkAssignInsn 1 ["b"] [] 2, []) := rfl
  exact ⟨h, (c1_dynamic_selection h).1.1.1, (c1_dynamic_selection h).1.2⟩

/-- Claim C2: the set of variables deleted before running a selected
instruction (`execute_dynamic` deletes exactly the `discardable_vars`
returned by `get_next_step`, lines 507-508) is characterised by: a
variable is deleted iff it is in the context, is a dependency of no
not-yet-completed instruction, and is not referenced by the result
expression.  The left-to-right direction says no live variable is ever
deleted; the right-to-left direction says every dead variable is pruned
at the step where that becomes true. -/
theorem c2_liveness_pruning {insns : List RInsn} {ns : List String} {done : List Nat}
    {rvs : List String} {insn : RInsn} {dv : List String}
    (h : getNextStep insns ns done rvs = some (insn, dv)) :
    ∀ v, v ∈ dv ↔
      (v ∈ ns ∧ (∀ j ∈ insns, j.iid ∉ done → v ∉ j.deps) ∧ v ∉ rvs) := by
  intro v
  rw [getNextStep_discardable h v]
  constructor
  · rintro ⟨h1, h2, h3⟩
    refine ⟨h1, ?_, h3⟩
    intro j hj hjd hv
    exact h2 (mem_neededDeps.mpr ⟨j, hj, hjd, hv⟩)
  · rintro ⟨h1, h2, h3⟩
    refine ⟨h1, ?_, h3⟩
    intro hmem
    obtain ⟨j, hj, hjd, hv⟩ := mem_neededDeps.mp hmem
    exact h2 j hj hjd hv

/-- Witness for C2: with context `{x, z}`, one incomplete instruction
depending on `x`, and result variable `y`, exactly `z` is discarded. -/
theorem c2_liveness_pruning_witness :
    getNextStep [mkAssignInsn 0 ["y"] ["x"] 0] ["x", "z"] [] ["y"] =
      some (mkAssignInsn 0 ["y"] ["x"] 0, ["z"]) ∧
    ("z" ∈ (["z"] : List String) ↔
      ("z" ∈ (["x", "z"] : List String) ∧
        (∀ j ∈ [mkAssignInsn 0 ["y"] ["x"] 0],
          j.iid ∉ ([] : List Nat) → "z" ∉ j.deps) ∧
        "z" ∉ (["y"] : List String))) := by
  have h : getNextStep [mkAssignInsn 0 ["y"] ["x"] 0] ["x", "z"] [] ["y"] =
      some (mkAssignInsn 0 ["y"] ["x"] 0, ["z"]) := rfl
  exact ⟨h, c2_liveness_pruning h "z"⟩

/-- Claim C6: when the dynamic scheduler reaches a state with no ready
instruction and no outstanding futures while some instructions have not
completed, `execute_dynamic` raises a fatal `RuntimeError` and reports
the set of instructions that never completed
(`set(self.instructions) - done_insns`, lines 529-535). -/
theorem c6_unreachable {code : RCode} {ev : Evaluator} {fuel : Nat} {s : DynState}
    (h1 : s.futures = [])
    (h2 : getNextStep code.instructions (ctxNames s.ctx) s.done code.resultVars = none)
    (h3 : code.instructions.filter (fun i => decide (i.iid ∉ s.done)) ≠ []) :
    dynLoop code ev (fuel + 1) s =
      .error (.unreachable
        (code.instructions.filter (fun i => decide (i.iid ∉ s.done)))) := by
  simp only [dynLoop, h1, findReadyFuture, h2]
  simp only [List.isEmpty_nil, if_true, List.isEmpty_eq_true]
  rw [if_neg h3]

/-- Witness for C6: a single instruction depending on the never-supplied
variable `x` is reported unreachable. -/
theorem c6_unreachable_witness :
    c6St.futures = [] ∧
    getNextStep c6Code.instructions (ctxNames c6St.ctx) c6St.done c6Code.resultVars
      = none ∧
    c6Code.instructions.filter (fun i => decide (i.iid ∉ c6St.done)) = [c6Insn] ∧
    dynLoop c6Code ⟨fun _ => ([], [])⟩ 1 c6St = .error (.unreachable [c6Insn]) := by
  refine ⟨rfl, rfl, rfl, ?_⟩
  exact c6_unreachable rfl rfl (by decide)

/-- Claim C10: `FluxExchangeBatchAssign` carries class priority 1 while
the other variants default to 0 (`Assign`-likes take the priority their
constructor is passed); consequently, whenever a flux-exchange
instruction is ready and every other ready instruction has the default
priority 0, the dynamic scheduler selects a flux-exchange instruction. -/
theorem c10_flux_exchange_priority :
    (∀ iid names deps, (mkFluxExchangeInsn iid names deps).priority = 1) ∧
    (∀ iid names deps, (mkFluxBatchInsn iid names deps).priority = 0) ∧
    (∀ iid names deps, (mkDiffBatchInsn iid names deps).priority = 0) ∧
    (∀ iid names deps, (mkQuadDiffBatchInsn iid names deps).priority = 0) ∧
    (∀ iid names deps p, (mkAssignInsn iid names deps p).priority = p) ∧
    (∀ insns ns done rvs insn dv fx,
      getNextStep insns ns done rvs = some (insn, dv) →
      fx ∈ insns → fx.kind = .fluxExchange → fx.priority = 1 →
      fx.iid ∉ done → (∀ d ∈ fx.deps, d ∈ ns) →
      (∀ j ∈ insns, j.iid ∉ done → (∀ d ∈ j.deps, d ∈ ns) →
        j.kind ≠ .fluxExchange → j.priority = 0) →
      insn.kind = .fluxExchange) := by
  refine ⟨fun _ _ _ => rfl, fun _ _ _ => rfl, fun _ _ _ => rfl, fun _ _ _ => rfl,
    fun _ _ _ _ => rfl, ?_⟩
  intro insns ns done rvs insn dv fx h hfx hkind hpri hdone hdeps hothers
  obtain ⟨⟨hins, hid, hdp⟩, hmax⟩ := getNextStep_selects h
  by_contra hk
  have h0 : insn.priority = 0 := hothers insn hins hid hdp hk
  have h1 := hmax fx hfx hdone hdeps
  rw [hpri] at h1
  omega

/-- Witness for C10: a default-priority assignment and a flux exchange
both ready; the flux exchange is selected. -/
theorem c10_flux_exchange_priority_witness :
    getNextStep [mkAssignInsn 0 ["a"] [] 0, mkFluxExchangeInsn 1 ["b"] []] [] [] [] =
      some (mkFluxExchangeInsn 1 ["b"] [], []) ∧
    (mkFluxExchangeInsn 1 ["b"] []).kind = .fluxExchange :=
  ⟨rfl, c10_flux_exchange_priority.2.2.2.2.2
    [mkAssignInsn 0 ["a"] [] 0, mkFluxExchangeInsn 1 ["b"] []] [] [] []
    (mkFluxExchangeInsn 1 ["b"] []) [] (mkFluxExchangeInsn 1 ["b"] [])
    rfl (by decide) rfl rfl (by decide) (by decide) (by decide)⟩

/-- Claim C4 counterexample: the claim says a future-count mismatch
during replay is recovered locally by invalidating the cached schedule
and decrementing the retry budget, never surfacing as a crash.  On the
code, `execute` raises `RuntimeError` (line 586) which propagates to the
caller: at this concrete input the error is returned, the cached
schedule is still present and the budget is still 5. -/
theorem c4_counterexample :
    (execute scCode scEv [] 50 cx4Cs).1 = .error .futureCountMismatch ∧
    (execute scCode scEv [] 50 cx4Cs).2.lastSchedule = cx4Cs.lastSchedule ∧
    cx4Cs.lastSchedule.isSome = true ∧
    (execute scCode scEv [] 50 cx4Cs).2.attempts = 5 :=
  ⟨rfl, rfl, rfl, rfl⟩

/-- Claim C4 (amended): when an instruction produces a number of new
futures different from the count recorded in the cached schedule entry,
`execute` raises a `RuntimeError` that propagates to the caller; the
cached schedule is NOT invalidated and the retry budget is NOT
decremented (the `Code` scheduling state is left untouched). -/
theorem c4_mismatch_propagates :
    ∀ code ev initCtx fuel cs cs',
      execute code ev initCtx fuel cs = (.error .futureCountMismatch, cs') →
      cs' = cs ∧ cs'.lastSchedule = cs.lastSchedule ∧ cs'.attempts = cs.attempts := by
  intro code ev initCtx fuel cs cs' h
  have hcs : cs' = cs := by
    unfold execute at h
    cases hls : cs.lastSchedule with
    | none =>
        simp only [hls] at h
        cases hd : dynLoop code ev fuel
            { ctx := initCtx, nextFutureId := 0, futures := [], done := [],
              schedule := [], forceFuture := false } with
        | error e =>
            simp only [hd, Prod.mk.injEq] at h
            exact h.2.symm
        | ok s =>
            simp only [hd, Prod.mk.injEq] at h
            exact Except.noConfusion h.1
    | some sched =>
        simp only [hls] at h
        cases hr : replayLoop ev sched
            { ctx := initCtx, idToFuture := [], nextFutureId := 0,
              delayFree := true } with
        | error e =>
            simp only [hr, Prod.mk.injEq] at h
            exact h.2.symm
        | ok r =>
            simp only [hr, Prod.mk.injEq] at h
            exact Except.noConfusion h.1
  exact ⟨hcs, by rw [hcs], by rw [hcs]⟩

/-- Witness for the amended C4 at the concrete mismatch scenario. -/
theorem c4_mismatch_propagates_witness :
    execute scCode scEv [] 50 cx4Cs = (.error .futureCountMismatch, cx4Cs) ∧
    cx4Cs = cx4Cs ∧ cx4Cs.lastSchedule = cx4Cs.lastSchedule ∧
    cx4Cs.attempts = cx4Cs.attempts :=
  ⟨rfl, c4_mismatch_propagates scCode scEv [] 50 cx4Cs cx4Cs rfl⟩

/-- Helper for C5: once the retry budget is exhausted and no schedule is
cached, `execute` leaves the scheduling state unchanged (the dynamic run
skips caching because `static_schedule_attempts` is falsy, line 537). -/
theorem execute_attempts_zero_fixed (code : RCode) (ev : Evaluator)
    (initCtx : List (String × Int)) (fuel : Nat) (cs : CodeSt)
    (h1 : cs.lastSchedule = none) (h2 : cs.attempts = 0) :
    (execute code ev initCtx fuel cs).2 = cs := by
  unfold execute
  rw [h1]
  cases hd : dynLoop code ev fuel
      { ctx := initCtx, nextFutureId := 0, futures := [], done := [],
        schedule := [], forceFuture := false } with
  | error e => rfl
  | ok s => simp [h2]

/-- Claim C5 counterexample: the claim says that with an evaluator whose
futures are never ready at replay time, a fresh Program has its cached
schedule invalidated on each of 5 consecutive `execute` calls and from
the 6th call on runs dynamically with no schedule ever cached again.  On
the code, dynamic runs and failed replays alternate: the 3rd and 7th
calls each CACHE a schedule, and after 7 calls the budget is 2, not
exhausted. -/
theorem c5_counterexample :
    (scCallN 3).lastSchedule.isSome = true ∧
    (scCallN 7).lastSchedule.isSome = true ∧
    (scCallN 7).attempts = 2 :=
  ⟨rfl, rfl, rfl⟩

/-- Claim C5 (amended): with an evaluator whose futures are never ready
at replay time, calls alternate — odd-numbered calls run dynamically and
cache a schedule (while the budget is nonzero), even-numbered calls
replay, observe the delay, drop the schedule and decrement the budget.
The budget reaches zero on the 10th call; from the 11th call onward the
scheduling state is a fixed point: execution is permanently dynamic and
no schedule is ever cached again. -/
theorem c5_retry_budget_pattern :
    (scCallN 1).lastSchedule.isSome = true ∧ (scCallN 1).attempts = 5 ∧
    (scCallN 2).lastSchedule = none ∧ (scCallN 2).attempts = 4 ∧
    (scCallN 3).lastSchedule.isSome = true ∧ (scCallN 3).attempts = 4 ∧
    (scCallN 4).lastSchedule = none ∧ (scCallN 4).attempts = 3 ∧
    (scCallN 5).lastSchedule.isSome = true ∧ (scCallN 5).attempts = 3 ∧
    (scCallN 6).lastSchedule = none ∧ (scCallN 6).attempts = 2 ∧
    (scCallN 7).lastSchedule.isSome = true ∧ (scCallN 7).attempts = 2 ∧
    (scCallN 8).lastSchedule = none ∧ (scCallN 8).attempts = 1 ∧
    (scCallN 9).lastSchedule.isSome = true ∧ (scCallN 9).attempts = 1 ∧
    (scCallN 10).lastSchedule = none ∧ (scCallN 10).attempts = 0 ∧
    (∀ k, scCallN (10 + k) = scCallN 10) := by
  refine ⟨rfl, rfl, rfl, rfl, rfl, rfl, rfl, rfl, rfl, rfl, rfl, rfl, rfl, rfl,
    rfl, rfl, rfl, rfl, rfl, rfl, ?_⟩
  intro k
  induction k with
  | zero => rfl
  | succ n ih =>
      show scCall (scCallN (10 + n)) = scCallN 10
      rw [ih]
      exact execute_attempts_zero_fixed scCode scEv [] 50 (scCallN 10) rfl rfl

theorem findFirstFree_not_mem (cand : Nat → String) (assigned : List String) :
    ∀ fuel k n, findFirstFree cand assigned fuel k = some n → n ∉ assigned := by
  intro fuel
  induction fuel with
  | zero => intro k n h; cases h
  | succ f ih =>
      intro k n h
      simp only [findFirstFree] at h
      split at h
      · exact ih (k + 1) n h
      · rename_i hni
        simp only [Option.some.injEq] at h
        subst h
        exact hni

theorem getVarName_fresh :
    ∀ g p fuel n g', getVarName g p fuel = some (n, g') →
      n ∉ g.assigned ∧ g'.assigned = n :: g.assigned ∧ g'.pfx = g.pfx := by
  intro g p fuel n g' h
  unfold getVarName at h
  cases hf : findFirstFree (nameCandidates g p) g.assigned fuel 0 with
  | none => rw [hf] at h; cases h
  | some m =>
      rw [hf] at h
      simp only [Option.some.injEq, Prod.mk.injEq] at h
      obtain ⟨rfl, rfl⟩ := h
      exact ⟨findFirstFree_not_mem _ _ fuel 0 _ hf, rfl, rfl⟩

/-- Claim C7 counterexample: the claim says the first call supplying a
given stem returns the stem unchanged.  After `get_var_name("foo")` and
`get_var_name("foo")` have produced `foo` and `foo_2`, the FIRST call
supplying the stem `foo_2` returns `foo_2_2`, not `foo_2`. -/
theorem c7_counterexample :
    getVarName ⟨"_expr", []⟩ (some "foo") 10 =
      some ("foo", ⟨"_expr", ["foo"]⟩) ∧
    getVarName ⟨"_expr", ["foo"]⟩ (some "foo") 10 =
      some ("foo_2", ⟨"_expr", ["foo_2", "foo"]⟩) ∧
    getVarName ⟨"_expr", ["foo_2", "foo"]⟩ (some "foo_2") 10 =
      some ("foo_2_2", ⟨"_expr", ["foo_2_2", "foo_2", "foo"]⟩) :=
  ⟨rfl, rfl, rfl⟩

/-- Claim C7 (amended): every name `get_var_name` returns is distinct
from all previously returned names (it is absent from `assigned_names`
at call time and recorded afterwards, so names are pairwise distinct over
any call sequence); when a stem is supplied and the stem string itself
has not been assigned yet (by ANY earlier call, with or without a stem),
the stem is returned unchanged; when the stem is taken, collisions are
disambiguated with a numeric suffix whose numbering starts at 2. -/
theorem c7_name_generation :
    (∀ g p fuel n g', getVarName g p fuel = some (n, g') →
      n ∉ g.assigned ∧ g'.assigned = n :: g.assigned ∧ g'.pfx = g.pfx) ∧
    (∀ g stem fuel, stem ∉ g.assigned → 0 < fuel →
      getVarName g (some stem) fuel = some (stem, ⟨g.pfx, stem :: g.assigned⟩)) ∧
    (∀ g stem fuel, stem ∈ g.assigned → stem ++ "_" ++ Nat.repr 2 ∉ g.assigned →
      1 < fuel →
      getVarName g (some stem) fuel =
        some (stem ++ "_" ++ Nat.repr 2,
          ⟨g.pfx, (stem ++ "_" ++ Nat.repr 2) :: g.assigned⟩)) ∧
    (∀ stem k, suffixCandidate stem (k + 1) = stem ++ "_" ++ Nat.repr (k + 2)) := by
  refine ⟨getVarName_fresh, ?_, ?_, fun stem k => rfl⟩
  · intro g stem fuel h1 h2
    cases fuel with
    | zero => omega
    | succ f =>
        simp [getVarName, findFirstFree, nameCandidates, suffixCandidate, h1]
  · intro g stem fuel h1 h2 h3
    cases fuel with
    | zero => omega
    | succ f0 =>
        cases f0 with
        | zero => omega
        | succ f =>
            simp [getVarName, findFirstFree, nameCandidates, suffixCandidate, h1, h2]

/-- Witness for the amended C7: a fresh stem is returned unchanged, and a
colliding stem gets the `_2` suffix. -/
theorem c7_name_generation_witness :
    getVarName ⟨"_expr", ["bar"]⟩ (some "baz") 3 =
      some ("baz", ⟨"_expr", ["baz", "bar"]⟩) ∧
    getVarName ⟨"_expr", ["qux"]⟩ (some "qux") 3 =
      some ("qux" ++ "_" ++ Nat.repr 2,
        ⟨"_expr", ("qux" ++ "_" ++ Nat.repr 2) :: ["qux"]⟩) :=
  ⟨c7_name_generation.2.1 ⟨"_expr", ["bar"]⟩ "baz" 3 (by decide) (by decide),
   c7_name_generation.2.2.1 ⟨"_expr", ["qux"]⟩ "qux" 3 (by decide) (by decide)
     (by decide)⟩

/-- Claim C8: the claim says only zero-flop-count and provably-zero-valued
non-scalar `Assign`s are excluded from the greedy merging, all others
remaining candidates.  The zero-assignment loop (lines 1033-1040) calls
`unprocessed_assigns.pop()`, which pops the LAST element rather than the
one at index `i`: with a zero-valued assignment first in the list, the
following non-zero, nonzero-flop assignment is also moved into
`processed_assigns` (first component, excluded from merging) and the
candidate list (second component) ends up empty.  This contradicts the
source's own `# filter out zero assignments` comment; the intended call
is `pop(i)`. -/
theorem c8_zero_filter_misfilters :
    aggregateFilter
      [.assign ⟨0, false, 1, true⟩, .assign ⟨1, false, 1, false⟩] =
      ([⟨1, false, 1, false⟩, ⟨0, false, 1, true⟩], [], []) ∧
    (⟨1, false, 1, false⟩ : AAssign).flops ≠ 0 ∧
    (⟨1, false, 1, false⟩ : AAssign).hasZeroExpr = false :=
  ⟨rfl, by decide, rfl⟩

theorem extractAdmissible_fst {adm : List Nat} :
    ∀ q, ∀ fr ∈ (extractAdmissible adm q).1, fr ∈ q ∧ ∀ d ∈ fr.deps, d ∈ adm := by
  intro q
  induction q with
  | nil => intro fr h; cases h
  | cons f rest ih =>
      intro fr h
      simp only [extractAdmissible] at h
      split at h
      · rename_i hall
        rcases List.mem_cons.mp h with rfl | h'
        · refine ⟨List.mem_cons_self _ _, ?_⟩
          intro d hd
          have := List.all_eq_true.mp hall d hd
          simpa using this
        · obtain ⟨h1, h2⟩ := ih fr h'
          exact ⟨List.mem_cons_of_mem _ h1, h2⟩
      · obtain ⟨h1, h2⟩ := ih fr h
        exact ⟨List.mem_cons_of_mem _ h1, h2⟩

theorem groupByReprOpAux_props :
    ∀ fuel l, l.length ≤ fuel →
      (∀ b ∈ groupByReprOpAux fuel l, ∀ fr ∈ b.fluxExprs,
        fr.reprOp = b.reprOp ∧ fr ∈ l) ∧
      (∀ fr ∈ l, ∃ b ∈ groupByReprOpAux fuel l, fr ∈ b.fluxExprs) := by
  intro fuel
  induction fuel with
  | zero =>
      intro l hl
      have hnil : l = [] := List.length_eq_zero.mp (Nat.le_zero.mp hl)
      subst hnil
      refine ⟨?_, ?_⟩
      · intro b hb; cases hb
      · intro fr hfr; cases hfr
  | succ f ih =>
      intro l hl
      cases l with
      | nil =>
          refine ⟨?_, ?_⟩
          · intro b hb; cases hb
          · intro fr hfr; cases hfr
      | cons fr0 rest =>
          have hlen : (rest.filter (fun g => g.reprOp != fr0.reprOp)).length ≤ f := by
            have := List.length_filter_le (fun g => g.reprOp != fr0.reprOp) rest
            simp only [List.length_cons] at hl
            omega
          obtain ⟨ih1, ih2⟩ := ih _ hlen
          constructor
          · intro b hb fr hfr
            simp only [groupByReprOpAux] at hb
            rcases List.mem_cons.mp hb with rfl | hb'
            · rcases List.mem_cons.mp hfr with rfl | hfr'
              · exact ⟨rfl, List.mem_cons_self _ _⟩
              · obtain ⟨hm, hp⟩ := List.mem_filter.mp hfr'
                refine ⟨by simpa using hp, List.mem_cons_of_mem _ hm⟩
            · obtain ⟨heq, hmem⟩ := ih1 b hb' fr hfr
              exact ⟨heq, List.mem_cons_of_mem _ (List.mem_filter.mp hmem).1⟩
          · intro fr hfr
            simp only [groupByReprOpAux]
            rcases List.mem_cons.mp hfr with rfl | hfr'
            · exact ⟨_, List.mem_cons_self _ _, List.mem_cons_self _ _⟩
            · by_cases hc : fr.reprOp = fr0.reprOp
              · refine ⟨_, List.mem_cons_self _ _, ?_⟩
                exact List.mem_cons_of_mem _
                  (List.mem_filter.mpr ⟨hfr', by simpa using hc⟩)
              · obtain ⟨b, hb, hfb⟩ :=
                  ih2 fr (List.mem_filter.mpr ⟨hfr', by simpa using hc⟩)
                exact ⟨b, List.mem_cons_of_mem _ hb, hfb⟩

theorem groupByReprOp_props (l : List FluxRec) :
    (∀ b ∈ groupByReprOp l, ∀ fr ∈ b.fluxExprs, fr.reprOp = b.reprOp ∧ fr ∈ l) ∧
    (∀ fr ∈ l, ∃ b ∈ groupByReprOp l, fr ∈ b.fluxExprs) :=
  groupByReprOpAux_props l.length l (le_refl _)

theorem makeFluxBatchesAux_invariant :
    ∀ fuel adm queue (bs : List FluxBatch), makeFluxBatchesAux fuel adm queue = some bs →
      ∀ (i : Nat) (b : FluxBatch), bs[i]? = some b → ∀ fr ∈ b.fluxExprs,
        fr.reprOp = b.reprOp ∧
        ∀ d ∈ fr.deps, d ∈ adm ∨
          ∃ (j : Nat) (b' : FluxBatch), j < i ∧ bs[j]? = some b' ∧
            ∃ fr' ∈ b'.fluxExprs, fr'.fluxExpr = d := by
  intro fuel
  induction fuel with
  | zero =>
      intro adm queue bs h i b hib fr hfr
      cases queue with
      | nil =>
          simp only [makeFluxBatchesAux, Option.some.injEq] at h
          subst h
          simp at hib
      | cons q0 qrest => exact Option.noConfusion h
  | succ f ih =>
      intro adm queue bs h i b hib fr hfr
      cases queue with
      | nil =>
          simp only [makeFluxBatchesAux, Option.some.injEq] at h
          subst h
          simp at hib
      | cons q0 qrest =>
          simp only [makeFluxBatchesAux] at h
          split at h
          · cases h
          · cases hrec : makeFluxBatchesAux f
                (adm ++ (extractAdmissible adm (q0 :: qrest)).1.map (·.fluxExpr))
                (extractAdmissible adm (q0 :: qrest)).2 with
            | none => rw [hrec] at h; cases h
            | some bs' =>
                rw [hrec] at h
                simp only [Option.some.injEq] at h
                subst h
                by_cases hi : i < (groupByReprOp (extractAdmissible adm (q0 :: qrest)).1).length
                · rw [List.getElem?_append_left hi] at hib
                  have hbG : b ∈ groupByReprOp (extractAdmissible adm (q0 :: qrest)).1 := by
                    obtain ⟨hlt, rfl⟩ := List.getElem?_eq_some.mp hib
                    exact List.getElem_mem hlt
                  obtain ⟨hgp, _⟩ := groupByReprOp_props
                    (extractAdmissible adm (q0 :: qrest)).1
                  obtain ⟨hrop, hmem⟩ := hgp b hbG fr hfr
                  refine ⟨hrop, ?_⟩
                  intro d hd
                  exact Or.inl ((extractAdmissible_fst _ fr hmem).2 d hd)
                · push_neg at hi
                  rw [List.getElem?_append_right hi] at hib
                  have hinv := ih _ _ _ hrec _ b hib fr hfr
                  refine ⟨hinv.1, ?_⟩
                  intro d hd
                  rcases hinv.2 d hd with hadm | ⟨j, b', hj, hjb, fr', hfr', hfe⟩
                  · rcases List.mem_append.mp hadm with h1 | h1
                    · exact Or.inl h1
                    · right
                      obtain ⟨frd, hfrd, hfq⟩ := List.mem_map.mp h1
                      obtain ⟨_, hcov⟩ := groupByReprOp_props
                        (extractAdmissible adm (q0 :: qrest)).1
                      obtain ⟨bG, hbG, hfrbG⟩ := hcov frd hfrd
                      obtain ⟨jg, hjglt, rfl⟩ := List.getElem_of_mem hbG
                      refine ⟨jg, _, by omega, ?_, frd, hfrbG, hfq⟩
                      rw [List.getElem?_append_left hjglt]
                      exact List.getElem?_eq_getElem hjglt
                  · right
                    refine ⟨(groupByReprOp (extractAdmissible adm (q0 :: qrest)).1).length + j,
                      b', by omega, ?_, fr', hfr', hfe⟩
                    rw [List.getElem?_append_right
                      (by omega :
                        (groupByReprOp (extractAdmissible adm (q0 :: qrest)).1).length ≤
                        (groupByReprOp (extractAdmissible adm (q0 :: qrest)).1).length + j)]
                    rw [Nat.add_sub_cancel_left]
                    exact hjb

/-- Claim C3: for every successful flux batching (as computed by
`OperatorCompiler.__call__`, lines 661-702), the `FluxBatchAssign`
instruction built from any batch (`make_flux_batch_assign`, lines
948-949) contains only flux expressions whose `repr_op` equals the
`repr_op` recorded on the instruction, and every flux dependency of a
member was placed in a strictly earlier batch. -/
theorem c3_flux_batch_invariant :
    ∀ queue (bs : List FluxBatch), makeFluxBatches queue = some bs →
      ∀ (i : Nat) (b : FluxBatch), bs[i]? = some b → ∀ names,
        ∀ fr ∈ (makeFluxBatchAssign names b.fluxExprs b.reprOp).expressions,
          fr.reprOp = (makeFluxBatchAssign names b.fluxExprs b.reprOp).reprOp ∧
          ∀ d ∈ fr.deps, ∃ (j : Nat) (b' : FluxBatch), j < i ∧ bs[j]? = some b' ∧
            ∃ fr' ∈ b'.fluxExprs, fr'.fluxExpr = d := by
  intro queue bs h i b hib names fr hfr
  have hinv := makeFluxBatchesAux_invariant queue.length [] queue bs h i b hib fr hfr
  refine ⟨hinv.1, ?_⟩
  intro d hd
  rcases hinv.2 d hd with hadm | hex
  · cases hadm
  · exact hex

/-- Witness for C3: three fluxes, one depending on another; the batch of
the dependent flux sits strictly after the batch of its dependency. -/
theorem c3_flux_batch_invariant_witness :
    makeFluxBatches [⟨10, [], 5⟩, ⟨11, [10], 5⟩, ⟨12, [], 7⟩] =
      some [⟨5, [⟨10, [], 5⟩]⟩, ⟨7, [⟨12, [], 7⟩]⟩, ⟨5, [⟨11, [10], 5⟩]⟩] ∧
    ([⟨5, [⟨10, [], 5⟩]⟩, ⟨7, [⟨12, [], 7⟩]⟩, ⟨5, [⟨11, [10], 5⟩]⟩] :
      List FluxBatch)[2]? = some ⟨5, [⟨11, [10], 5⟩]⟩ ∧
    (∀ fr ∈ (makeFluxBatchAssign ["n0"] [⟨11, [10], 5⟩] 5).expressions,
      fr.reprOp = (makeFluxBatchAssign ["n0"] [⟨11, [10], 5⟩] 5).reprOp ∧
      ∀ d ∈ fr.deps, ∃ (j : Nat) (b' : FluxBatch), j < 2 ∧
        ([⟨5, [⟨10, [], 5⟩]⟩, ⟨7, [⟨12, [], 7⟩]⟩, ⟨5, [⟨11, [10], 5⟩]⟩] :
          List FluxBatch)[j]? = some b' ∧
        ∃ fr' ∈ b'.fluxExprs, fr'.fluxExpr = d) :=
  ⟨rfl, rfl,
    c3_flux_batch_invariant [⟨10, [], 5⟩, ⟨11, [10], 5⟩, ⟨12, [], 7⟩]
      [⟨5, [⟨10, [], 5⟩]⟩, ⟨7, [⟨12, [], 7⟩]⟩, ⟨5, [⟨11, [10], 5⟩]⟩]
      rfl 2 ⟨5, [⟨11, [10], 5⟩]⟩ rfl ["n0"]⟩

theorem noVectorCode_append_insn {l : List CInsn} {i : CInsn}
    (h : noVectorCode l) (hi : i.isVectorExprAssignB = false) :
    noVectorCode (l ++ [i]) := by
  intro j hj
  rcases List.mem_append.mp hj with hl | hr
  · exact h j hl
  · rw [List.mem_singleton.mp hr]; exact hi

theorem csGetVarName_code {s : CompSt} {p : Option String} {n : String} {s' : CompSt}
    (h : csGetVarName s p = .ok (n, s')) : s'.code = s.code := by
  unfold csGetVarName at h
  cases hg : getVarName s.gen p (s.gen.assigned.length + 2) with
  | none => rw [hg] at h; cases h
  | some q =>
      obtain ⟨qn, qg⟩ := q
      simp only [hg, Except.ok.injEq, Prod.mk.injEq] at h
      rw [← h.2]

theorem freshNames_code :
    ∀ (k : Nat) (s : CompSt) (names : List String) (s' : CompSt),
      freshNames s k = .ok (names, s') → s'.code = s.code := by
  intro k
  induction k with
  | zero =>
      intro s names s' h
      simp only [freshNames, Except.ok.injEq, Prod.mk.injEq] at h
      rw [← h.2]
  | succ n ih =>
      intro s names s' h
      simp only [freshNames] at h
      cases hg : csGetVarName s none with
      | error e => simp only [hg] at h; exact Except.noConfusion h
      | ok q =>
          obtain ⟨nm, s₁⟩ := q
          simp only [hg] at h
          cases hr : freshNames s₁ n with
          | error e => simp only [hr] at h; exact Except.noConfusion h
          | ok q2 =>
              obtain ⟨rest, s₂⟩ := q2
              simp only [hr, Except.ok.injEq, Prod.mk.injEq] at h
              rw [← h.2, ih s₁ rest s₂ hr, csGetVarName_code hg]

theorem assignToNewVar_noVector {s : CompSt} {e : SExpr} {prio : Int}
    {p : Option String} {isc : Bool} {r : SExpr × CompSt}
    (h : assignToNewVar s e prio p isc = .ok r) (hnv : noVectorCode s.code) :
    noVectorCode r.2.code := by
  unfold assignToNewVar at h
  split at h
  · simp only [Except.ok.injEq] at h
    rw [← h]
    exact hnv
  · cases hg : csGetVarName s p with
    | error err => simp only [hg] at h; exact Except.noConfusion h
    | ok q =>
        obtain ⟨n, s₁⟩ := q
        simp only [hg, Except.ok.injEq] at h
        rw [← h]
        exact noVectorCode_append_insn (csGetVarName_code hg ▸ hnv) rfl

theorem compileRec_noVector (env : CompEnv) :
    ∀ (e : SExpr) (hint : Option String) (s : CompSt) (r : SExpr × CompSt),
      compileRec env e hint s = .ok r → noVectorCode s.code →
        noVectorCode r.2.code := by
  intro e
  induction e with
  | var n =>
      intro hint s r h hnv
      simp only [compileRec, Except.ok.injEq] at h
      rw [← h]; exact hnv
  | subscript b i ihb =>
      intro hint s r h hnv
      simp only [compileRec] at h
      cases hb : compileRec env b none s with
      | error e1 => simp only [hb] at h; exact Except.noConfusion h
      | ok q =>
          obtain ⟨b', s'⟩ := q
          simp only [hb, Except.ok.injEq] at h
          rw [← h]
          exact ihb none s (b', s') hb hnv
  | cse p prio child ihc =>
      intro hint s r h hnv
      simp only [compileRec] at h
      cases hlk : lookupAssoc s.exprToVar child with
      | some v =>
          simp only [hlk, Except.ok.injEq] at h
          rw [← h]; exact hnv
      | none =>
          simp only [hlk] at h
          cases hc : compileRec env child p s with
          | error e1 => simp only [hc] at h; exact Except.noConfusion h
          | ok q =>
              obtain ⟨rc, s₁⟩ := q
              simp only [hc] at h
              cases ha : assignToNewVar s₁ rc prio p
                  (env.scalarHint (.cse p prio child)) with
              | error e1 => simp only [ha] at h; exact Except.noConfusion h
              | ok q2 =>
                  obtain ⟨cseVar, s₂⟩ := q2
                  simp only [ha, Except.ok.injEq] at h
                  rw [← h]
                  have hres := assignToNewVar_noVector ha (ihc p s (rc, s₁) hc hnv)
                  exact hres
  | opBind op field ihf =>
      intro hint s r h hnv
      simp only [compileRec] at h
      split at h
      · -- differentiation operator: map_ref_diff_op_binding
        cases hlk : lookupAssoc s.diffVar (op, field) with
        | some v =>
            simp only [hlk, Except.ok.injEq] at h
            rw [← h]; exact hnv
        | none =>
            simp only [hlk] at h
            split at h
            · exact Except.noConfusion h
            · cases hf : freshNames s
                  (env.diffOps.filter (fun d =>
                    opSameClassFamily d.1 op && d.2 == field)).length with
              | error e1 => simp only [hf] at h; exact Except.noConfusion h
              | ok q =>
                  obtain ⟨names, s₁⟩ := q
                  simp only [hf] at h
                  cases hfld : compileRec env field none s₁ with
                  | error e1 => simp only [hfld] at h; exact Except.noConfusion h
                  | ok q2 =>
                      obtain ⟨field', s₂⟩ := q2
                      simp only [hfld] at h
                      have hnv₂ : noVectorCode
                          (s₂.code ++ [.diffBatchAssign names field']) :=
                        noVectorCode_append_insn
                          (ihf none s₁ (field', s₂) hfld
                            (freshNames_code _ s names s₁ hf ▸ hnv)) rfl
                      cases hlk2 : lookupAssoc
                          (((env.diffOps.filter (fun d =>
                              opSameClassFamily d.1 op && d.2 == field)).zip
                            names).map (fun q => (q.1, SExpr.var q.2)) ++
                            s₂.diffVar) (op, field) with
                      | some v =>
                          simp only [hlk2, Except.ok.injEq] at h
                          rw [← h]
                          exact hnv₂
                      | none => simp only [hlk2] at h; exact Except.noConfusion h
      · split at h
        · exact Except.noConfusion h
        · cases hfld : compileRec env field none s with
          | error e1 => simp only [hfld] at h; exact Except.noConfusion h
          | ok q =>
              obtain ⟨f', s₁⟩ := q
              simp only [hfld] at h
              cases ha : assignToNewVar s₁ f' 0 none false with
              | error e1 => simp only [ha] at h; exact Except.noConfusion h
              | ok q2 =>
                  obtain ⟨fieldVar, s₂⟩ := q2
                  simp only [ha] at h
                  exact assignToNewVar_noVector h
                    (assignToNewVar_noVector ha (ihf none s (f', s₁) hfld hnv))
  | callF cfunc fn arg iha =>
      intro hint s r h hnv
      simp only [compileRec] at h
      split at h
      · cases hc : compileRec env arg none s with
        | error e1 => simp only [hc] at h; exact Except.noConfusion h
        | ok q =>
            obtain ⟨a', s'⟩ := q
            simp only [hc, Except.ok.injEq] at h
            rw [← h]
            exact iha none s (a', s') hc hnv
      · cases hc : compileRec env arg none s with
        | error e1 => simp only [hc] at h; exact Except.noConfusion h
        | ok q =>
            obtain ⟨a', s₁⟩ := q
            simp only [hc] at h
            cases ha : assignToNewVar s₁ a' 0 none false with
            | error e1 => simp only [ha] at h; exact Except.noConfusion h
            | ok q2 =>
                obtain ⟨pv, s₂⟩ := q2
                simp only [ha] at h
                exact assignToNewVar_noVector h
                  (assignToNewVar_noVector ha (iha none s (a', s₁) hc hnv))
  | ones =>
      intro hint s r h hnv
      simp only [compileRec] at h
      exact assignToNewVar_noVector h hnv
  | nodeCoord ax =>
      intro hint s r h hnv
      simp only [compileRec] at h
      exact assignToNewVar_noVector h hnv
  | normalComp ax =>
      intro hint s r h hnv
      simp only [compileRec] at h
      exact assignToNewVar_noVector h hnv
  | wdFlux fid rop child ihc =>
      intro hint s r h hnv
      simp only [compileRec] at h
      cases hlk : lookupAssoc s.fluxVar fid with
      | some v =>
          simp only [hlk, Except.ok.injEq] at h
          rw [← h]; exact hnv
      | none =>
          simp only [hlk] at h
          cases hfb : env.fluxBatches.find? (fun fb =>
              fb.fluxExprs.any (fun fr => fr.fluxExpr == fid)) with
          | none => simp only [hfb] at h; exact Except.noConfusion h
          | some fb =>
              simp only [hfb] at h
              cases hc : compileRec env child none s with
              | error e1 => simp only [hc] at h; exact Except.noConfusion h
              | ok q =>
                  obtain ⟨c', s₁⟩ := q
                  simp only [hc] at h
                  cases hf : freshNames s₁ fb.fluxExprs.length with
                  | error e1 => simp only [hf] at h; exact Except.noConfusion h
                  | ok q2 =>
                      obtain ⟨names, s₂⟩ := q2
                      simp only [hf] at h
                      have hnv₂ : noVectorCode (s₂.code ++
                          [.fluxBatchAssign names fb.fluxExprs fb.reprOp]) :=
                        noVectorCode_append_insn
                          (freshNames_code _ s₁ names s₂ hf ▸
                            ihc none s (c', s₁) hc hnv) rfl
                      cases hlk2 : lookupAssoc
                          (((fb.fluxExprs.zip names).map
                            (fun q => (q.1.fluxExpr, SExpr.var q.2))) ++
                            s₂.fluxVar) fid with
                      | some v =>
                          simp only [hlk2, Except.ok.injEq] at h
                          rw [← h]
                          exact hnv₂
                      | none => simp only [hlk2] at h; exact Except.noConfusion h
  | fluxXchg idx rank argField iha =>
      intro hint s r h hnv
      simp only [compileRec] at h
      cases hlk : lookupAssoc s.xchgVar (idx, rank, argField) with
      | some v =>
          simp only [hlk, Except.ok.injEq] at h
          rw [← h]; exact hnv
      | none =>
          simp only [hlk] at h
          split at h
          · exact Except.noConfusion h
          · cases hf : freshNames s
                (env.xchgOps.filter (fun t => t.2.2 == argField)).length with
            | error e1 => simp only [hf] at h; exact Except.noConfusion h
            | ok q =>
                obtain ⟨names, s₁⟩ := q
                simp only [hf] at h
                cases hc : compileRec env argField none s₁ with
                | error e1 => simp only [hc] at h; exact Except.noConfusion h
                | ok q2 =>
                    obtain ⟨a', s₂⟩ := q2
                    simp only [hc] at h
                    have hnv₂ : noVectorCode (s₂.code ++
                        [.fluxExchangeBatchAssign names
                          ((env.xchgOps.filter (fun t => t.2.2 == argField)).map
                            (fun t => (t.1, t.2.1))) a']) :=
                      noVectorCode_append_insn
                        (iha none s₁ (a', s₂) hc
                          (freshNames_code _ s names s₁ hf ▸ hnv)) rfl
                    cases hlk2 : lookupAssoc
                        ((((env.xchgOps.filter (fun t => t.2.2 == argField)).zip
                          names).map (fun q => (q.1, SExpr.var q.2))) ++
                          s₂.xchgVar) (idx, rank, argField) with
                    | some v =>
                        simp only [hlk2, Except.ok.injEq] at h
                        rw [← h]
                        exact hnv₂
                    | none => simp only [hlk2] at h; exact Except.noConfusion h
  | binOp a b iha ihb =>
      intro hint s r h hnv
      simp only [compileRec] at h
      cases hca : compileRec env a none s with
      | error e1 => simp only [hca] at h; exact Except.noConfusion h
      | ok q =>
          obtain ⟨a', s₁⟩ := q
          simp only [hca] at h
          cases hcb : compileRec env b none s₁ with
          | error e1 => simp only [hcb] at h; exact Except.noConfusion h
          | ok q2 =>
              obtain ⟨b', s₂⟩ := q2
              simp only [hcb, Except.ok.injEq] at h
              rw [← h]
              exact ihb none s₁ (b', s₂) hcb (iha none s (a', s₁) hca hnv)

/-- Claim C9: `OperatorCompiler.__call__` returns
`Code(self.code, result)` (line 718) — the instruction list is exactly
what the recursive walk emitted, with the `aggregate_assignments` call
of line 717 commented out — and since `finalize_multi_assign` (the only
producer of `VectorExprAssign`) is called only from that disabled pass,
no compiled Program contains a `VectorExprAssign` instruction. -/
theorem c9_no_vector_expr_assign :
    ∀ (e0 : SExpr) (scalarHint : SExpr → Bool) (insns : List CInsn) (res : SExpr),
      compile e0 scalarHint = .ok (insns, res) → noVectorCode insns := by
  intro e0 scalarHint insns res h
  simp only [compile] at h
  cases hmk : makeFluxBatches (fluxRecordsOf (SExpr.cse (some "_result") 0 e0)) with
  | none => simp only [hmk] at h; exact Except.noConfusion h
  | some fbs =>
      simp only [hmk] at h
      cases hr : compileRec
          ⟨fbs, dedupList (collectDiffOps (SExpr.cse (some "_result") 0 e0)),
            dedupList (collectFluxXchgs (SExpr.cse (some "_result") 0 e0)),
            scalarHint⟩
          (SExpr.cse (some "_result") 0 e0) none
          ⟨⟨"_expr", []⟩, [], [], [], [], []⟩ with
      | error e1 => simp only [hr] at h; exact Except.noConfusion h
      | ok q =>
          obtain ⟨res', s⟩ := q
          simp only [hr, Except.ok.injEq, Prod.mk.injEq] at h
          rw [← h.1]
          have hbase : noVectorCode
              (CompSt.code ⟨⟨"_expr", []⟩, [], [], [], [], []⟩) := by
            intro i hi
            cases hi
          exact compileRec_noVector _ _ _ _ _ hr hbase

/-- Witness for C9: compiling a small expression succeeds and yields a
single plain `Assign`, with no `VectorExprAssign` in the list. -/
theorem c9_no_vector_expr_assign_witness :
    compile (.binOp (.var "x") (.var "y")) (fun _ => false) =
      .ok ([.assign "_result" (.binOp (.var "x") (.var "y")) 0 false],
        .var "_result") ∧
    noVectorCode [.assign "_result" (.binOp (.var "x") (.var "y")) 0 false] :=
  ⟨rfl, c9_no_vector_expr_assign (.binOp (.var "x") (.var "y")) (fun _ => false)
    [.assign "_result" (.binOp (.var "x") (.var "y")) 0 false] (.var "_result") rfl⟩
